import Mathlib

/-!
Verification of the SDOF vibration tool core library.

The definitions below are a shallow embedding, over the real numbers, of the
functions in `src/core/sdof_system.py`, `src/core/transmissibility.py`,
`src/core/time_response.py` and `src/core/shock_response.py`.  Array-valued
functions are embedded pointwise (a value at each time sample) or as Lean
lists; float arithmetic is modelled as exact real arithmetic.
-/

open Real

noncomputable section

namespace SDOF

/-- `SDOFSystem` dataclass from `src/core/sdof_system.py`:
mass (kg), stiffness (N/m), damping coefficient (N·s/m). -/
structure SDOFSystem where
  mass : ℝ
  stiffness : ℝ
  damping : ℝ

namespace SDOFSystem

/-- `SDOFSystem.from_damping_ratio`: build a system from (mass, stiffness, ζ)
via `c_critical = 2·sqrt(stiffness·mass)`, `damping = ζ·c_critical`. -/
def from_damping_ratio (mass stiffness zeta : ℝ) : SDOFSystem :=
  let c_critical := 2 * Real.sqrt (stiffness * mass)
  { mass := mass, stiffness := stiffness, damping := zeta * c_critical }

/-- `natural_frequency` property: ωn = √(k/m) in rad/s. -/
def natural_frequency (s : SDOFSystem) : ℝ :=
  Real.sqrt (s.stiffness / s.mass)

/-- `critical_damping` property: cc = 2√(k·m). -/
def critical_damping (s : SDOFSystem) : ℝ :=
  2 * Real.sqrt (s.stiffness * s.mass)

/-- `damping_ratio` property: ζ = c / cc. -/
def damping_ratio (s : SDOFSystem) : ℝ :=
  s.damping / s.critical_damping

/-- `damped_frequency` property: 0 when ζ ≥ 1, else ωn·√(1−ζ²). -/
def damped_frequency (s : SDOFSystem) : ℝ :=
  if s.damping_ratio ≥ 1 then 0
  else s.natural_frequency * Real.sqrt (1 - s.damping_ratio ^ 2)

end SDOFSystem

/-- `compute_transmissibility_normalized` from `src/core/transmissibility.py`:
TR = √[(1 + (2ζr)²) / ((1−r²)² + (2ζr)²)], evaluated at one frequency ratio. -/
def compute_transmissibility_normalized (zeta r : ℝ) : ℝ :=
  Real.sqrt ((1 + (2 * zeta * r) ^ 2) / ((1 - r ^ 2) ^ 2 + (2 * zeta * r) ^ 2))

/-- `find_crossover_frequency` from `src/core/transmissibility.py`: returns √2. -/
def find_crossover_frequency : ℝ := Real.sqrt 2

/-- Damping regime tag (spec §9 suggests a closed sum type; the code branches
with if/elif/else chains). -/
inductive Regime where
  | underdamped
  | critical
  | overdamped
deriving DecidableEq

/-- The branch dispatch used by `compute_impulse_response` and
`compute_step_response` in `src/core/time_response.py`:
`if zeta < 1 / elif zeta == 1 / else` (exact comparison with 1). -/
def exactRegime (zeta : ℝ) : Regime :=
  if zeta < 1 then Regime.underdamped
  else if zeta = 1 then Regime.critical
  else Regime.overdamped

/-- `np.isclose(a, b)` with numpy's default tolerances
(rtol = 1e-5, atol = 1e-8): |a − b| ≤ atol + rtol·|b|. -/
def np_isclose (a b : ℝ) : Prop :=
  |a - b| ≤ 1e-8 + 1e-5 * |b|

instance (a b : ℝ) : Decidable (np_isclose a b) := by
  unfold np_isclose; infer_instance

/-- `compute_impulse_response` from `src/core/time_response.py`, embedded
pointwise: the displacement value at time t (the time grid `linspace(0, t_end,
n_points)` merely samples this function). -/
def compute_impulse_response_x (s : SDOFSystem) (t : ℝ) : ℝ :=
  let omega_n := s.natural_frequency
  let zeta := s.damping_ratio
  let m := s.mass
  match exactRegime zeta with
  | Regime.underdamped =>
      let omega_d := s.damped_frequency
      (1 / (m * omega_d)) * Real.exp (-zeta * omega_n * t) * Real.sin (omega_d * t)
  | Regime.critical =>
      (1 / m) * t * Real.exp (-omega_n * t)
  | Regime.overdamped =>
      let s1 := -omega_n * (zeta + Real.sqrt (zeta ^ 2 - 1))
      let s2 := -omega_n * (zeta - Real.sqrt (zeta ^ 2 - 1))
      let A := 1 / (m * (s2 - s1))
      A * (Real.exp (s2 * t) - Real.exp (s1 * t))

/-- `compute_step_response` from `src/core/time_response.py`, embedded pointwise:
displacement at time t for a step force of magnitude `step_magnitude`. -/
def compute_step_response_x (s : SDOFSystem) (step_magnitude t : ℝ) : ℝ :=
  let omega_n := s.natural_frequency
  let zeta := s.damping_ratio
  let x_static := step_magnitude / s.stiffness
  match exactRegime zeta with
  | Regime.underdamped =>
      let omega_d := s.damped_frequency
      let envelope_decay := Real.exp (-zeta * omega_n * t)
      let oscillation := Real.cos (omega_d * t)
        + (zeta * omega_n / omega_d) * Real.sin (omega_d * t)
      x_static * (1 - envelope_decay * oscillation)
  | Regime.critical =>
      x_static * (1 - (1 + omega_n * t) * Real.exp (-omega_n * t))
  | Regime.overdamped =>
      let sqrt_term := Real.sqrt (zeta ^ 2 - 1)
      let s1 := -omega_n * (zeta + sqrt_term)
      let s2 := -omega_n * (zeta - sqrt_term)
      let A := s2 / (s2 - s1)
      let B := s1 / (s1 - s2)
      x_static * (1 + A * Real.exp (s1 * t) + B * Real.exp (s2 * t))

/-- `np.arctan2(y, x)`: the argument of the complex number x + y·i. -/
def arctan2 (y x : ℝ) : ℝ := Complex.arg ⟨x, y⟩

/-- `compute_harmonic_response` from `src/core/time_response.py`, embedded
pointwise: the total response at time t (third tuple component `x_total`) for
excitation frequency omega in rad/s and force amplitude F0. -/
def harmonic_total (s : SDOFSystem) (omega F0 : ℝ) (include_transient : Bool)
    (t : ℝ) : ℝ :=
  let k := s.stiffness
  let omega_n := s.natural_frequency
  let zeta := s.damping_ratio
  let r := omega / omega_n
  let X0 := F0 / k
  let denominator := Real.sqrt ((1 - r ^ 2) ^ 2 + (2 * zeta * r) ^ 2)
  let X := X0 / denominator
  let phi := arctan2 (2 * zeta * r) (1 - r ^ 2)
  let x_steady := X * Real.sin (omega * t - phi)
  if include_transient ∧ zeta < 1 then
    let omega_d := s.damped_frequency
    let A := -(-X * Real.sin (-phi))
    let B := (-X * omega * Real.cos (-phi) + zeta * omega_n * A) / omega_d
    x_steady + Real.exp (-zeta * omega_n * t)
      * (A * Real.cos (omega_d * t) + B * Real.sin (omega_d * t))
  else
    x_steady

/-- `compute_free_vibration` from `src/core/time_response.py`, embedded
pointwise: displacement at time t from initial conditions (x0, v0).  Branches
`zeta < 1` / `np.isclose(zeta, 1)` / else. -/
def compute_free_vibration (s : SDOFSystem) (t x0 v0 : ℝ) : ℝ :=
  let omega_n := s.natural_frequency
  let zeta := s.damping_ratio
  if zeta < 1 then
    let omega_d := s.damped_frequency
    let A := x0
    let B := (v0 + zeta * omega_n * x0) / omega_d
    Real.exp (-zeta * omega_n * t) * (A * Real.cos (omega_d * t) + B * Real.sin (omega_d * t))
  else if np_isclose zeta 1 then
    let A := x0
    let B := v0 + omega_n * x0
    (A + B * t) * Real.exp (-omega_n * t)
  else
    let sqrt_term := Real.sqrt (zeta ^ 2 - 1)
    let s1 := -omega_n * (zeta + sqrt_term)
    let s2 := -omega_n * (zeta - sqrt_term)
    let A := (x0 * s2 - v0) / (s2 - s1)
    let B := (v0 - x0 * s1) / (s2 - s1)
    A * Real.exp (s1 * t) + B * Real.exp (s2 * t)

/-- `decay_envelope` from `src/core/time_response.py`:
`initial_amplitude · exp(−ζωn·t)`. -/
def decay_envelope (s : SDOFSystem) (t initial_amplitude : ℝ) : ℝ :=
  initial_amplitude * Real.exp (-s.damping_ratio * s.natural_frequency * t)

/-- C6: for every damping ratio ζ ≥ 0, the normalized transmissibility evaluated at
the frequency ratio returned by `find_crossover_frequency` (r = √2) equals exactly 1. -/
theorem transmissibility_crossover (zeta : ℝ) (hz : 0 ≤ zeta) :
    compute_transmissibility_normalized zeta find_crossover_frequency = 1 := by
  unfold compute_transmissibility_normalized find_crossover_frequency
  have hr2 : Real.sqrt 2 ^ 2 = 2 := Real.sq_sqrt (by norm_num)
  have hnum : (1 + (2 * zeta * Real.sqrt 2) ^ 2) = 1 + 8 * zeta ^ 2 := by
    have : (2 * zeta * Real.sqrt 2) ^ 2 = 4 * zeta ^ 2 * Real.sqrt 2 ^ 2 := by ring
    rw [this, hr2]; ring
  have hden : ((1 - Real.sqrt 2 ^ 2) ^ 2 + (2 * zeta * Real.sqrt 2) ^ 2)
      = 1 + 8 * zeta ^ 2 := by
    have : (2 * zeta * Real.sqrt 2) ^ 2 = 4 * zeta ^ 2 * Real.sqrt 2 ^ 2 := by ring
    rw [this, hr2]; ring
  rw [hnum, hden, div_self (by positivity)]
  exact Real.sqrt_one

/-- Witness for C6 at ζ = 1/10. -/
theorem transmissibility_crossover_witness :
    (0 : ℝ) ≤ 1 / 10 ∧ compute_transmissibility_normalized (1 / 10) find_crossover_frequency = 1 :=
  ⟨by norm_num, transmissibility_crossover (1 / 10) (by norm_num)⟩

/-- C7: for m > 0, k > 0, ζ ≥ 0, `from_damping_ratio` round-trips the damping ratio
exactly, and the constructed system has mass m, stiffness k and natural frequency √(k/m). -/
theorem from_damping_ratio_roundtrip (m k zeta : ℝ) (hm : 0 < m) (hk : 0 < k)
    (hz : 0 ≤ zeta) :
    (SDOFSystem.from_damping_ratio m k zeta).damping_ratio = zeta
    ∧ (SDOFSystem.from_damping_ratio m k zeta).mass = m
    ∧ (SDOFSystem.from_damping_ratio m k zeta).stiffness = k
    ∧ (SDOFSystem.from_damping_ratio m k zeta).natural_frequency = Real.sqrt (k / m) := by
  have hkm : 0 < k * m := mul_pos hk hm
  have hs : Real.sqrt (k * m) ≠ 0 := ne_of_gt (Real.sqrt_pos.mpr hkm)
  refine ⟨?_, rfl, rfl, rfl⟩
  simp only [SDOFSystem.from_damping_ratio, SDOFSystem.damping_ratio,
    SDOFSystem.critical_damping]
  rw [mul_div_cancel_right₀ _ (by positivity)]

/-- Witness for C7 at m = 10, k = 1000, ζ = 3/10. -/
theorem from_damping_ratio_roundtrip_witness :
    (0 : ℝ) < 10 ∧ (0 : ℝ) < 1000 ∧ (0 : ℝ) ≤ 3 / 10
    ∧ ((SDOFSystem.from_damping_ratio 10 1000 (3 / 10)).damping_ratio = 3 / 10
      ∧ (SDOFSystem.from_damping_ratio 10 1000 (3 / 10)).mass = 10
      ∧ (SDOFSystem.from_damping_ratio 10 1000 (3 / 10)).stiffness = 1000
      ∧ (SDOFSystem.from_damping_ratio 10 1000 (3 / 10)).natural_frequency
          = Real.sqrt (1000 / 10)) :=
  ⟨by norm_num, by norm_num, by norm_num,
    from_damping_ratio_roundtrip 10 1000 (3 / 10) (by norm_num) (by norm_num) (by norm_num)⟩

/-- C2 counterexample: the system (m=1, k=1, c=2+2e-7) has damping ratio
ζ = 1+1e-7, which is within the classification tolerance of 1 (np.isclose),
yet the `zeta < 1 / zeta == 1 / else` chain of `compute_impulse_response` and
`compute_step_response` selects the overdamped branch, not the critical one. -/
theorem impulse_step_tolerance_counterexample :
    np_isclose ((⟨1, 1, 2 + 2e-7⟩ : SDOFSystem).damping_ratio) 1
    ∧ exactRegime ((⟨1, 1, 2 + 2e-7⟩ : SDOFSystem).damping_ratio) = Regime.overdamped
    ∧ Regime.overdamped ≠ Regime.critical := by
  have h : (⟨1, 1, 2 + 2e-7⟩ : SDOFSystem).damping_ratio = 1 + 1e-7 := by
    simp only [SDOFSystem.damping_ratio, SDOFSystem.critical_damping]
    norm_num [Real.sqrt_one]
  refine ⟨?_, ?_, by decide⟩
  · rw [h]; unfold np_isclose
    rw [show (1:ℝ) + 1e-7 - 1 = 1e-7 by norm_num, abs_of_nonneg (by norm_num),
      abs_of_nonneg (by norm_num : (0:ℝ) ≤ 1)]
    norm_num
  · rw [h]; unfold exactRegime
    rw [if_neg (by norm_num), if_neg (by norm_num)]

/-- C2 amended: `compute_impulse_response` and `compute_step_response` select the
critically damped closed-form branch when the damping ratio equals 1 exactly
(the branch test is `zeta == 1`, not the tolerance-based classification):
then the impulse response is (1/m)·t·e^(−ωn·t) and the step response is
x_s·[1 − (1+ωn·t)·e^(−ωn·t)]. -/
theorem impulse_step_critical_branch (s : SDOFSystem) (F t : ℝ)
    (h : s.damping_ratio = 1) :
    exactRegime s.damping_ratio = Regime.critical
    ∧ compute_impulse_response_x s t
        = (1 / s.mass) * t * Real.exp (-s.natural_frequency * t)
    ∧ compute_step_response_x s F t
        = (F / s.stiffness)
          * (1 - (1 + s.natural_frequency * t) * Real.exp (-s.natural_frequency * t)) := by
  have hr : exactRegime s.damping_ratio = Regime.critical := by
    rw [h]; unfold exactRegime
    rw [if_neg (by norm_num), if_pos rfl]
  refine ⟨hr, ?_, ?_⟩
  · simp only [compute_impulse_response_x, hr]
  · simp only [compute_step_response_x, hr]

/-- Witness for C2's amended theorem at m = 1, k = 1, c = 2 (ζ = 1), F = 1, t = 1. -/
theorem impulse_step_critical_branch_witness :
    (⟨1, 1, 2⟩ : SDOFSystem).damping_ratio = 1
    ∧ (exactRegime (⟨1, 1, 2⟩ : SDOFSystem).damping_ratio = Regime.critical
      ∧ compute_impulse_response_x ⟨1, 1, 2⟩ 1
          = (1 / (⟨1, 1, 2⟩ : SDOFSystem).mass) * 1
            * Real.exp (-(⟨1, 1, 2⟩ : SDOFSystem).natural_frequency * 1)
      ∧ compute_step_response_x ⟨1, 1, 2⟩ 1 1
          = (1 / (⟨1, 1, 2⟩ : SDOFSystem).stiffness)
            * (1 - (1 + (⟨1, 1, 2⟩ : SDOFSystem).natural_frequency * 1)
              * Real.exp (-(⟨1, 1, 2⟩ : SDOFSystem).natural_frequency * 1))) := by
  have h : (⟨1, 1, 2⟩ : SDOFSystem).damping_ratio = 1 := by
    simp only [SDOFSystem.damping_ratio, SDOFSystem.critical_damping]
    norm_num [Real.sqrt_one]
  exact ⟨h, impulse_step_critical_branch ⟨1, 1, 2⟩ 1 1 h⟩

/-- The amplitude of a·cos θ + b·sin θ is at most √(a²+b²). -/
lemma abs_cos_sin_combo_le (a b θ : ℝ) :
    |a * Real.cos θ + b * Real.sin θ| ≤ Real.sqrt (a ^ 2 + b ^ 2) := by
  have h1 : (a * Real.cos θ + b * Real.sin θ) ^ 2 ≤ a ^ 2 + b ^ 2 := by
    nlinarith [Real.sin_sq_add_cos_sq θ, sq_nonneg (a * Real.sin θ - b * Real.cos θ)]
  calc |a * Real.cos θ + b * Real.sin θ|
      = Real.sqrt ((a * Real.cos θ + b * Real.sin θ) ^ 2) := (Real.sqrt_sq_eq_abs _).symm
    _ ≤ Real.sqrt (a ^ 2 + b ^ 2) := Real.sqrt_le_sqrt h1

/-- C3 counterexample: for the system (m=1, k=1, c=6/5), ζ = 3/5 ∈ (0,1), at
t = (5/4)·arctan(3/4) ≥ 0 with x₀ = 1 > 0 and v₀ = 0, the free-vibration
response exceeds the decay envelope with initial amplitude x₀:
the response there equals (5/4)·e^(−ζωn·t), the envelope only e^(−ζωn·t). -/
theorem free_vibration_envelope_counterexample :
    0 < (⟨1, 1, 6/5⟩ : SDOFSystem).damping_ratio
    ∧ (⟨1, 1, 6/5⟩ : SDOFSystem).damping_ratio < 1
    ∧ 0 ≤ (5/4 : ℝ) * Real.arctan (3/4)
    ∧ (0:ℝ) < 1
    ∧ ¬ (|compute_free_vibration ⟨1, 1, 6/5⟩ ((5/4) * Real.arctan (3/4)) 1 0|
          ≤ decay_envelope ⟨1, 1, 6/5⟩ ((5/4) * Real.arctan (3/4)) 1) := by
  have hζ : (⟨1, 1, 6/5⟩ : SDOFSystem).damping_ratio = 3/5 := by
    simp only [SDOFSystem.damping_ratio, SDOFSystem.critical_damping]
    norm_num [Real.sqrt_one]
  have hωn : (⟨1, 1, 6/5⟩ : SDOFSystem).natural_frequency = 1 := by
    simp only [SDOFSystem.natural_frequency]
    norm_num [Real.sqrt_one]
  have hωd : (⟨1, 1, 6/5⟩ : SDOFSystem).damped_frequency = 4/5 := by
    simp only [SDOFSystem.damped_frequency, hζ, hωn]
    rw [if_neg (by norm_num)]
    rw [show (1:ℝ) - (3/5)^2 = (4/5)^2 by norm_num, Real.sqrt_sq (by norm_num)]
    norm_num
  have hat : (0:ℝ) ≤ Real.arctan (3/4) := by
    rw [← Real.arctan_zero]
    exact Real.arctan_strictMono.le_iff_le.mpr (by norm_num)
  refine ⟨by rw [hζ]; norm_num, by rw [hζ]; norm_num,
    mul_nonneg (by norm_num) hat, by norm_num, ?_⟩
  have harg : (4/5 : ℝ) * ((5/4) * Real.arctan (3/4)) = Real.arctan (3/4) := by ring
  have hsq : Real.sqrt (1 + (3/4 : ℝ)^2) = 5/4 := by
    rw [show (1:ℝ) + (3/4)^2 = (5/4)^2 by norm_num, Real.sqrt_sq (by norm_num)]
  have hval : compute_free_vibration ⟨1, 1, 6/5⟩ ((5/4) * Real.arctan (3/4)) 1 0
      = (5/4) * Real.exp (-(3/5) * 1 * ((5/4) * Real.arctan (3/4))) := by
    simp only [compute_free_vibration, hζ, hωn, hωd]
    rw [if_pos (by norm_num : (3/5 : ℝ) < 1)]
    rw [harg, Real.cos_arctan, Real.sin_arctan, hsq]
    ring
  have henv : decay_envelope ⟨1, 1, 6/5⟩ ((5/4) * Real.arctan (3/4)) 1
      = Real.exp (-(3/5) * 1 * ((5/4) * Real.arctan (3/4))) := by
    simp only [decay_envelope, hζ, hωn]
    ring_nf
  rw [hval, henv]
  intro hle
  have hE : 0 < Real.exp (-(3/5) * 1 * ((5/4) * Real.arctan (3/4))) := Real.exp_pos _
  rw [abs_of_pos (by positivity)] at hle
  nlinarith

/-- C3 amended: for every underdamped system (0 < ζ < 1, m > 0, k > 0), t ≥ 0,
x₀ > 0 and zero initial velocity, the free vibration is bounded by the decay
envelope with initial amplitude x₀/√(1−ζ²) (not x₀: the true oscillation
amplitude for v₀ = 0 is x₀/√(1−ζ²)). -/
theorem free_vibration_envelope_bound (s : SDOFSystem) (t x0 : ℝ)
    (hm : 0 < s.mass) (hk : 0 < s.stiffness)
    (hz0 : 0 < s.damping_ratio) (hz1 : s.damping_ratio < 1)
    (ht : 0 ≤ t) (hx0 : 0 < x0) :
    |compute_free_vibration s t x0 0|
      ≤ decay_envelope s t (x0 / Real.sqrt (1 - s.damping_ratio ^ 2)) := by
  set ζ := s.damping_ratio with hζdef
  set ωn := s.natural_frequency with hωndef
  have hωn : 0 < ωn := Real.sqrt_pos.mpr (div_pos hk hm)
  have h1z : 0 < 1 - ζ ^ 2 := by nlinarith
  have hsq : 0 < Real.sqrt (1 - ζ ^ 2) := Real.sqrt_pos.mpr h1z
  have hsqsq : Real.sqrt (1 - ζ ^ 2) ^ 2 = 1 - ζ ^ 2 := Real.sq_sqrt h1z.le
  have hωd : s.damped_frequency = ωn * Real.sqrt (1 - ζ ^ 2) := by
    simp only [SDOFSystem.damped_frequency, ← hζdef, ← hωndef]
    rw [if_neg (not_le.mpr hz1)]
  have hB : (0 + ζ * ωn * x0) / (ωn * Real.sqrt (1 - ζ ^ 2))
      = ζ * x0 / Real.sqrt (1 - ζ ^ 2) := by
    field_simp
    ring
  have hval : compute_free_vibration s t x0 0
      = Real.exp (-ζ * ωn * t)
        * (x0 * Real.cos (ωn * Real.sqrt (1 - ζ ^ 2) * t)
          + (ζ * x0 / Real.sqrt (1 - ζ ^ 2)) * Real.sin (ωn * Real.sqrt (1 - ζ ^ 2) * t)) := by
    simp only [compute_free_vibration, ← hζdef, ← hωndef, hωd]
    rw [if_pos hz1, hB]
  have hamp : Real.sqrt (x0 ^ 2 + (ζ * x0 / Real.sqrt (1 - ζ ^ 2)) ^ 2)
      = x0 / Real.sqrt (1 - ζ ^ 2) := by
    have : x0 ^ 2 + (ζ * x0 / Real.sqrt (1 - ζ ^ 2)) ^ 2
        = (x0 / Real.sqrt (1 - ζ ^ 2)) ^ 2 := by
      field_simp
      nlinarith [hsqsq]
    rw [this, Real.sqrt_sq (by positivity)]
  rw [hval]
  rw [abs_mul, abs_of_pos (Real.exp_pos _)]
  calc Real.exp (-ζ * ωn * t)
        * |x0 * Real.cos (ωn * Real.sqrt (1 - ζ ^ 2) * t)
          + (ζ * x0 / Real.sqrt (1 - ζ ^ 2)) * Real.sin (ωn * Real.sqrt (1 - ζ ^ 2) * t)|
      ≤ Real.exp (-ζ * ωn * t)
        * Real.sqrt (x0 ^ 2 + (ζ * x0 / Real.sqrt (1 - ζ ^ 2)) ^ 2) := by
        exact mul_le_mul_of_nonneg_left (abs_cos_sin_combo_le _ _ _) (Real.exp_pos _).le
    _ = decay_envelope s t (x0 / Real.sqrt (1 - ζ ^ 2)) := by
        rw [hamp]
        simp only [decay_envelope, ← hζdef, ← hωndef]
        ring

/-- Witness for C3's amended theorem at m = 1, k = 1, c = 1 (ζ = 1/2), t = 0, x₀ = 1. -/
theorem free_vibration_envelope_bound_witness :
    0 < (⟨1, 1, 1⟩ : SDOFSystem).mass ∧ 0 < (⟨1, 1, 1⟩ : SDOFSystem).stiffness
    ∧ 0 < (⟨1, 1, 1⟩ : SDOFSystem).damping_ratio
    ∧ (⟨1, 1, 1⟩ : SDOFSystem).damping_ratio < 1
    ∧ (0:ℝ) ≤ 0 ∧ (0:ℝ) < 1
    ∧ |compute_free_vibration ⟨1, 1, 1⟩ 0 1 0|
        ≤ decay_envelope ⟨1, 1, 1⟩ 0
            (1 / Real.sqrt (1 - (⟨1, 1, 1⟩ : SDOFSystem).damping_ratio ^ 2)) := by
  have hζ : (⟨1, 1, 1⟩ : SDOFSystem).damping_ratio = 1/2 := by
    simp only [SDOFSystem.damping_ratio, SDOFSystem.critical_damping]
    norm_num [Real.sqrt_one]
  refine ⟨by norm_num, by norm_num, by rw [hζ]; norm_num, by rw [hζ]; norm_num,
    le_refl 0, by norm_num, ?_⟩
  exact free_vibration_envelope_bound ⟨1, 1, 1⟩ 0 1 (by norm_num) (by norm_num)
    (by rw [hζ]; norm_num) (by rw [hζ]; norm_num) (le_refl 0) (by norm_num)

/-- `np.arctan2(1, 0) = π/2`. -/
lemma arctan2_one_zero : arctan2 1 0 = Real.pi / 2 := by
  unfold arctan2
  rw [show (⟨0, 1⟩ : ℂ) = Complex.I from rfl, Complex.arg_I]

/-- C1 (evaluation of the code at the failing input): for the underdamped system
(m=1, k=1, c=1, ζ=1/2), excitation ω = 1 rad/s (so r = 1, φ = π/2), force
amplitude 1, with transient inclusion requested, the total response at t = 0 is
−2, not 0.  The transient coefficient is computed as `A = -(-X*sin(-phi))`,
which equals −X·sin φ, while the code's own comment (`# = X·sin(phi)`) and the
stated zero initial conditions require A = X·sin φ; the transient therefore
doubles the steady-state value at the origin instead of cancelling it. -/
theorem harmonic_transient_initial_value :
    harmonic_total ⟨1, 1, 1⟩ 1 1 true 0 = -2 ∧ (-2 : ℝ) ≠ 0 := by
  refine ⟨?_, by norm_num⟩
  have hζ : (⟨1,1,1⟩ : SDOFSystem).damping_ratio = 1/2 := by
    simp only [SDOFSystem.damping_ratio, SDOFSystem.critical_damping]
    norm_num [Real.sqrt_one]
  have hωn : (⟨1,1,1⟩ : SDOFSystem).natural_frequency = 1 := by
    simp only [SDOFSystem.natural_frequency]
    norm_num [Real.sqrt_one]
  simp only [harmonic_total, hζ, hωn]
  norm_num
  rw [arctan2_one_zero, Real.sin_pi_div_two]
  norm_num

/-- `np.max` over a list (numpy requires a non-empty array; the `[]` case is a
junk value never reached under the claims' hypotheses). -/
def npMax : List ℝ → ℝ
  | [] => 0
  | x :: xs => xs.foldl max x

/-- `np.min` over a list (same convention as `npMax`). -/
def npMin : List ℝ → ℝ
  | [] => 0
  | x :: xs => xs.foldl min x

lemma le_foldl_max_init (l : List ℝ) (a : ℝ) : a ≤ l.foldl max a := by
  induction l generalizing a with
  | nil => exact le_refl a
  | cons x xs ih => exact le_trans (le_max_left a x) (ih (max a x))

lemma le_foldl_max_of_mem (l : List ℝ) (a y : ℝ) : y ∈ l → y ≤ l.foldl max a := by
  induction l generalizing a with
  | nil => intro h; simp at h
  | cons x xs ih =>
    intro hy
    simp only [List.foldl_cons]
    rcases List.mem_cons.mp hy with h | h
    · subst h
      exact le_trans (le_max_right a y) (le_foldl_max_init xs _)
    · exact ih _ h

lemma foldl_max_mem (l : List ℝ) (a : ℝ) : l.foldl max a = a ∨ l.foldl max a ∈ l := by
  induction l generalizing a with
  | nil => left; rfl
  | cons x xs ih =>
    simp only [List.foldl_cons]
    rcases ih (max a x) with h | h
    · rcases le_total a x with hax | hxa
      · right
        rw [h, max_eq_right hax]
        exact List.mem_cons_self x xs
      · left
        rw [h, max_eq_left hxa]
    · right
      exact List.mem_cons_of_mem x h

lemma foldl_min_mem (l : List ℝ) (a : ℝ) : l.foldl min a = a ∨ l.foldl min a ∈ l := by
  induction l generalizing a with
  | nil => left; rfl
  | cons x xs ih =>
    simp only [List.foldl_cons]
    rcases ih (min a x) with h | h
    · rcases le_total a x with hax | hxa
      · left
        rw [h, min_eq_left hax]
      · right
        rw [h, min_eq_right hxa]
        exact List.mem_cons_self x xs
    · right
      exact List.mem_cons_of_mem x h

lemma npMax_mem (l : List ℝ) (hl : l ≠ []) : npMax l ∈ l := by
  cases l with
  | nil => exact absurd rfl hl
  | cons x xs =>
    simp only [npMax]
    rcases foldl_max_mem xs x with h | h
    · rw [h]; exact List.mem_cons_self x xs
    · exact List.mem_cons_of_mem x h

lemma npMin_mem (l : List ℝ) (hl : l ≠ []) : npMin l ∈ l := by
  cases l with
  | nil => exact absurd rfl hl
  | cons x xs =>
    simp only [npMin]
    rcases foldl_min_mem xs x with h | h
    · rw [h]; exact List.mem_cons_self x xs
    · exact List.mem_cons_of_mem x h

lemma le_npMax_of_mem (l : List ℝ) (y : ℝ) (hy : y ∈ l) : y ≤ npMax l := by
  cases l with
  | nil => simp at hy
  | cons x xs =>
    simp only [npMax]
    rcases List.mem_cons.mp hy with h | h
    · subst h; exact le_foldl_max_init xs y
    · exact le_foldl_max_of_mem xs x y h

/-- State of the Newmark-beta integrator: relative displacement, velocity,
acceleration at one sample. -/
structure NState where
  x : ℝ
  v : ℝ
  a : ℝ

/-- One step of the Newmark-beta loop body in `compute_sdof_response`
(`src/core/shock_response.py`): average-acceleration parameters γ=1/2, β=1/4,
effective stiffness and load, then the velocity/acceleration update. -/
def newmark_step (omega_n damping_ratio dt : ℝ) (st : NState) (accel_next : ℝ) : NState :=
  let gamma : ℝ := 1/2
  let beta : ℝ := 1/4
  let k_eff := omega_n ^ 2 + gamma / (beta * dt) * 2 * damping_ratio * omega_n
    + 1 / (beta * dt ^ 2)
  let p_eff := -accel_next
    + (1 / (beta * dt ^ 2)) * st.x
    + (1 / (beta * dt)) * st.v
    + (1 / (2 * beta) - 1) * st.a
    + 2 * damping_ratio * omega_n
      * ((gamma / (beta * dt)) * st.x + (gamma / beta - 1) * st.v
        + dt * (gamma / (2 * beta) - 1) * st.a)
  let x1 := p_eff / k_eff
  let v1 := (gamma / (beta * dt)) * (x1 - st.x) + (1 - gamma / beta) * st.v
    + dt * (1 - gamma / (2 * beta)) * st.a
  let a1 := (1 / (beta * dt ^ 2)) * (x1 - st.x) - (1 / (beta * dt)) * st.v
    - (1 / (2 * beta) - 1) * st.a
  ⟨x1, v1, a1⟩

/-- The Newmark loop over the remaining base-acceleration samples, collecting
the displacement at each step. -/
def newmark_run (omega_n damping_ratio dt : ℝ) : List ℝ → NState → List ℝ
  | [], _ => []
  | a1 :: rest, st =>
      let st1 := newmark_step omega_n damping_ratio dt st a1
      st1.x :: newmark_run omega_n damping_ratio dt rest st1

/-- `compute_sdof_response` from `src/core/shock_response.py`: relative
displacement of an oscillator of natural frequency `fn` (Hz) under a base
acceleration record, integrated with Newmark-beta from rest
(x=0, v=0, a[0] = −base[0]). -/
def compute_sdof_response (natural_freq damping_ratio : ℝ) (base_accel : List ℝ)
    (dt : ℝ) : List ℝ :=
  match base_accel with
  | [] => []
  | b0 :: rest =>
      let omega_n := 2 * Real.pi * natural_freq
      0 :: newmark_run omega_n damping_ratio dt rest ⟨0, 0, -b0⟩

lemma newmark_run_length (omega_n damping_ratio dt : ℝ) (l : List ℝ) (st : NState) :
    (newmark_run omega_n damping_ratio dt l st).length = l.length := by
  induction l generalizing st with
  | nil => rfl
  | cons a rest ih => simp [newmark_run, ih]

lemma compute_sdof_response_length (natural_freq damping_ratio : ℝ)
    (base_accel : List ℝ) (dt : ℝ) :
    (compute_sdof_response natural_freq damping_ratio base_accel dt).length
      = base_accel.length := by
  cases base_accel with
  | nil => rfl
  | cons b rest => simp [compute_sdof_response, newmark_run_length]

/-- The backward scan `for i in range(len(base)-1, -1, -1)` of `compute_srs`:
with fuel i+1 it inspects index i, returning the first (i.e. largest) index
whose magnitude exceeds the threshold, else recursing downward. -/
def shock_end_aux (base : List ℝ) (thr : ℝ) : ℕ → Option ℕ
  | 0 => none
  | i + 1 => if thr < |base.getD i 0| then some i else shock_end_aux base thr i

/-- The shock-end index of `compute_srs`: initialized to `len(base)-1`, replaced
by the largest index whose magnitude exceeds 1% of the peak absolute input. -/
def shock_end_idx (base : List ℝ) : ℕ :=
  let peak_accel := npMax (base.map (fun v => |v|))
  (shock_end_aux base (0.01 * peak_accel) base.length).getD (base.length - 1)

/-- One frequency's entry of the `compute_srs` result dictionary. -/
structure SRSPoint where
  maxi_max : ℝ
  primary_pos : ℝ
  primary_neg : ℝ
  residual_pos : ℝ
  residual_neg : ℝ

/-- The body of the per-frequency loop in `compute_srs`
(`src/core/shock_response.py`): pseudo-acceleration ωn²·x, split at the
shock-end index into primary (`[:idx+1]`) and residual (`[idx+1:]`) segments;
residual extrema stay 0 when the residual segment is empty; the returned
dictionary strips the sign of the negative extrema. -/
def srs_at_freq (base : List ℝ) (dt fn damping_ratio : ℝ) : SRSPoint :=
  let x := compute_sdof_response fn damping_ratio base dt
  let omega_n := 2 * Real.pi * fn
  let response := x.map (fun xi => omega_n ^ 2 * xi)
  let idx := shock_end_idx base
  let primary := response.take (idx + 1)
  let residual := response.drop (idx + 1)
  { maxi_max := npMax (response.map (fun v => |v|))
    primary_pos := npMax primary
    primary_neg := |npMin primary|
    residual_pos := if residual.length > 0 then npMax residual else 0
    residual_neg := if residual.length > 0 then |npMin residual| else 0 }

/-- `compute_srs`: the SRS point at each requested spectral frequency, in
request order. -/
def compute_srs (base_accel : List ℝ) (dt : ℝ) (frequencies : List ℝ)
    (damping_ratio : ℝ) : List SRSPoint :=
  frequencies.map (fun fn => srs_at_freq base_accel dt fn damping_ratio)

lemma shock_end_aux_some (base : List ℝ) (thr : ℝ) :
    ∀ i j, shock_end_aux base thr i = some j →
      j < i ∧ thr < |base.getD j 0|
        ∧ ∀ k, j < k → k < i → ¬ thr < |base.getD k 0| := by
  intro i
  induction i with
  | zero => intro j h; simp [shock_end_aux] at h
  | succ i ih =>
    intro j h
    unfold shock_end_aux at h
    by_cases hc : thr < |base.getD i 0|
    · rw [if_pos hc] at h
      injection h with h
      subst h
      exact ⟨Nat.lt_succ_self _, hc, fun k hk1 hk2 => by omega⟩
    · rw [if_neg hc] at h
      obtain ⟨h1, h2, h3⟩ := ih j h
      refine ⟨h1.trans (Nat.lt_succ_self i), h2, ?_⟩
      intro k hk1 hk2
      rcases Nat.lt_succ_iff_lt_or_eq.mp hk2 with hk | hk
      · exact h3 k hk1 hk
      · subst hk; exact hc

lemma shock_end_aux_none (base : List ℝ) (thr : ℝ) :
    ∀ i, shock_end_aux base thr i = none →
      ∀ k, k < i → ¬ thr < |base.getD k 0| := by
  intro i
  induction i with
  | zero => intro _ k hk; exact absurd hk (Nat.not_lt_zero k)
  | succ i ih =>
    intro h k hk
    unfold shock_end_aux at h
    by_cases hc : thr < |base.getD i 0|
    · rw [if_pos hc] at h; exact absurd h (by simp)
    · rw [if_neg hc] at h
      rcases Nat.lt_succ_iff_lt_or_eq.mp hk with hk' | hk'
      · exact ih h k hk'
      · subst hk'; exact hc

/-- Every absolute value of a member of a nonempty list is bounded by
`npMax` of the list of absolute values. -/
lemma abs_le_npMax_abs (l : List ℝ) (y : ℝ) (hy : y ∈ l) :
    |y| ≤ npMax (l.map (fun v => |v|)) :=
  le_npMax_of_mem _ _ (List.mem_map_of_mem (fun v => |v|) hy)

/-- C4: for every non-empty base record, time step, damping ratio and spectral
frequency, the SRS entry satisfies
maxi_max ≥ max(primary_pos, primary_neg, residual_pos, residual_neg). -/
theorem srs_maxi_max_dominates (base : List ℝ) (dt fn zeta : ℝ) (hbase : base ≠ []) :
    max (max (srs_at_freq base dt fn zeta).primary_pos
             (srs_at_freq base dt fn zeta).primary_neg)
        (max (srs_at_freq base dt fn zeta).residual_pos
             (srs_at_freq base dt fn zeta).residual_neg)
      ≤ (srs_at_freq base dt fn zeta).maxi_max := by
  simp only [srs_at_freq]
  set response := (compute_sdof_response fn zeta base dt).map
    (fun xi => (2 * Real.pi * fn) ^ 2 * xi) with hrespdef
  have hlen : response.length = base.length := by
    rw [hrespdef, List.length_map, compute_sdof_response_length]
  have hresp : response ≠ [] := by
    intro h
    apply hbase
    rw [← List.length_eq_zero, ← hlen, h]
    rfl
  set idx := shock_end_idx base
  have hbound : ∀ y ∈ response, y ≤ npMax (response.map (fun v => |v|)) :=
    fun y hy => le_trans (le_abs_self y) (abs_le_npMax_abs response y hy)
  have habsbound : ∀ y ∈ response, |y| ≤ npMax (response.map (fun v => |v|)) :=
    fun y hy => abs_le_npMax_abs response y hy
  have hprim_ne : response.take (idx + 1) ≠ [] := by
    intro h
    rcases List.take_eq_nil_iff.mp h with h' | h'
    · exact absurd h' (Nat.succ_ne_zero idx)
    · exact hresp h'
  refine max_le (max_le ?_ ?_) ?_
  · exact hbound _ (List.take_subset _ _ (npMax_mem _ hprim_ne))
  · exact habsbound _ (List.take_subset _ _ (npMin_mem _ hprim_ne))
  · by_cases hres : (response.drop (idx + 1)).length > 0
    · rw [if_pos hres, if_pos hres]
      have hres_ne : response.drop (idx + 1) ≠ [] := by
        intro h; rw [h] at hres; exact absurd hres (by simp)
      refine max_le ?_ ?_
      · exact hbound _ (List.drop_subset _ _ (npMax_mem _ hres_ne))
      · exact habsbound _ (List.drop_subset _ _ (npMin_mem _ hres_ne))
    · rw [if_neg hres, if_neg hres]
      obtain ⟨y, hy⟩ := List.exists_mem_of_ne_nil response hresp
      simp only [max_self]
      exact le_trans (abs_nonneg y) (habsbound y hy)

/-- Witness for C4 at base = [1, 0], dt = 1/100, fn = 1 Hz, ζ = 1/20. -/
theorem srs_maxi_max_dominates_witness :
    ([1, 0] : List ℝ) ≠ []
    ∧ max (max (srs_at_freq [1, 0] (1/100) 1 (1/20)).primary_pos
               (srs_at_freq [1, 0] (1/100) 1 (1/20)).primary_neg)
          (max (srs_at_freq [1, 0] (1/100) 1 (1/20)).residual_pos
               (srs_at_freq [1, 0] (1/100) 1 (1/20)).residual_neg)
        ≤ (srs_at_freq [1, 0] (1/100) 1 (1/20)).maxi_max :=
  ⟨by simp, srs_maxi_max_dominates [1, 0] (1/100) 1 (1/20) (by simp)⟩

/-- C5: for a non-empty base record, the shock-end index is the largest index
whose magnitude exceeds 1% of the peak absolute input; when no sample exceeds
that threshold the index is the last sample, the residual segment is empty,
and both residual metrics are 0 at every spectral frequency. -/
theorem shock_end_idx_spec (base : List ℝ) (hbase : base ≠ []) :
    ((∃ j, j < base.length
        ∧ 0.01 * npMax (base.map (fun v => |v|)) < |base.getD j 0|) →
      (shock_end_idx base < base.length
        ∧ 0.01 * npMax (base.map (fun v => |v|)) < |base.getD (shock_end_idx base) 0|
        ∧ ∀ j, j < base.length →
            0.01 * npMax (base.map (fun v => |v|)) < |base.getD j 0|
            → j ≤ shock_end_idx base))
    ∧ ((∀ j, j < base.length →
          ¬ 0.01 * npMax (base.map (fun v => |v|)) < |base.getD j 0|) →
      (shock_end_idx base = base.length - 1
        ∧ ∀ dt fn zeta, (srs_at_freq base dt fn zeta).residual_pos = 0
            ∧ (srs_at_freq base dt fn zeta).residual_neg = 0)) := by
  set thr := 0.01 * npMax (base.map (fun v => |v|)) with hthr
  constructor
  · rintro ⟨j, hj, hjthr⟩
    rcases haux : shock_end_aux base thr base.length with _ | j0
    · exact absurd hjthr (shock_end_aux_none base thr base.length haux j hj)
    · have hidx : shock_end_idx base = j0 := by
        simp only [shock_end_idx, ← hthr, haux, Option.getD_some]
      obtain ⟨h1, h2, h3⟩ := shock_end_aux_some base thr base.length j0 haux
      rw [hidx]
      refine ⟨h1, h2, ?_⟩
      intro k hk hkthr
      by_contra hgt
      exact h3 k (Nat.lt_of_not_le hgt) hk hkthr
  · intro hnone
    have haux : shock_end_aux base thr base.length = none := by
      rcases haux : shock_end_aux base thr base.length with _ | j0
      · rfl
      · obtain ⟨h1, h2, _⟩ := shock_end_aux_some base thr base.length j0 haux
        exact absurd h2 (hnone j0 h1)
    have hidx : shock_end_idx base = base.length - 1 := by
      simp only [shock_end_idx, ← hthr, haux, Option.getD_none]
    refine ⟨hidx, ?_⟩
    intro dt fn zeta
    simp only [srs_at_freq, hidx]
    have hpos : 0 < base.length := List.length_pos.mpr hbase
    have hdrop : ((compute_sdof_response fn zeta base dt).map
        (fun xi => (2 * Real.pi * fn) ^ 2 * xi)).drop (base.length - 1 + 1) = [] := by
      apply List.drop_eq_nil_of_le
      rw [List.length_map, compute_sdof_response_length]
      omega
    rw [hdrop]
    simp

/-- Witness for C5 at base = [1, 0]. -/
theorem shock_end_idx_spec_witness :
    ([1, 0] : List ℝ) ≠ []
    ∧ (((∃ j, j < ([1, 0] : List ℝ).length
        ∧ 0.01 * npMax (([1, 0] : List ℝ).map (fun v => |v|)) < |([1, 0] : List ℝ).getD j 0|) →
      (shock_end_idx [1, 0] < ([1, 0] : List ℝ).length
        ∧ 0.01 * npMax (([1, 0] : List ℝ).map (fun v => |v|))
            < |([1, 0] : List ℝ).getD (shock_end_idx [1, 0]) 0|
        ∧ ∀ j, j < ([1, 0] : List ℝ).length →
            0.01 * npMax (([1, 0] : List ℝ).map (fun v => |v|)) < |([1, 0] : List ℝ).getD j 0|
            → j ≤ shock_end_idx [1, 0]))
    ∧ ((∀ j, j < ([1, 0] : List ℝ).length →
          ¬ 0.01 * npMax (([1, 0] : List ℝ).map (fun v => |v|)) < |([1, 0] : List ℝ).getD j 0|) →
      (shock_end_idx [1, 0] = ([1, 0] : List ℝ).length - 1
        ∧ ∀ dt fn zeta, (srs_at_freq [1, 0] dt fn zeta).residual_pos = 0
            ∧ (srs_at_freq [1, 0] dt fn zeta).residual_neg = 0))) :=
  ⟨by simp, shock_end_idx_spec [1, 0] (by simp)⟩

/-- `int(duration / dt)` in `generate_shock_pulse` (floor, for positive inputs). -/
def pulse_samples (duration dt : ℝ) : ℕ := ⌊duration / dt⌋₊

/-- The sample count of `np.arange(0, duration * 10, dt)` in exact arithmetic. -/
def pulse_len (duration dt : ℝ) : ℕ := ⌈duration * 10 / dt⌉₊

/-- The per-kind closed-form sample value written by `generate_shock_pulse`
(`src/core/shock_response.py`) into the first `pulse_samples` entries; an
unrecognized kind leaves the zero initialization (no `else` branch). -/
def pulse_shape (pulse_type : String) (duration amplitude dt : ℝ) (i : ℕ) : ℝ :=
  let ps := pulse_samples duration dt
  let t := (i : ℝ) * dt
  if pulse_type = "half_sine" then
    amplitude * Real.sin (Real.pi * t / duration)
  else if pulse_type = "triangular" then
    if i < ps / 2 then amplitude * 2 * t / duration
    else amplitude * (2 - 2 * t / duration)
  else if pulse_type = "rectangular" then amplitude
  else if pulse_type = "versed_sine" then
    amplitude * (1 - Real.cos (2 * Real.pi * t / duration)) / 2
  else if pulse_type = "trapezoidal" then
    let rise_samples := ps / 4
    let hold_samples := ps / 2
    let fall_start := rise_samples + hold_samples
    if i < rise_samples then amplitude * t / ((rise_samples : ℝ) * dt)
    else if i < fall_start then amplitude
    else amplitude * (1 - (t - (fall_start : ℝ) * dt) / ((rise_samples : ℝ) * dt))
  else if pulse_type = "initial_peak_sawtooth" then amplitude * (1 - t / duration)
  else if pulse_type = "terminal_peak_sawtooth" then amplitude * t / duration
  else 0

/-- `generate_shock_pulse`: time array `np.arange(0, duration*10, dt)` and the
acceleration array, zero except the first `int(duration/dt)` samples which
carry the selected pulse shape. -/
def generate_shock_pulse (pulse_type : String) (duration amplitude dt : ℝ) :
    List ℝ × List ℝ :=
  let n := pulse_len duration dt
  let ps := pulse_samples duration dt
  ((List.range n).map (fun i : ℕ => (i : ℝ) * dt),
   (List.range n).map (fun i : ℕ =>
     if i < ps then pulse_shape pulse_type duration amplitude dt i else 0))

lemma getD_range_map (f : ℕ → ℝ) (n i : ℕ) :
    (((List.range n).map f).getD i 0) = if i < n then f i else 0 := by
  by_cases h : i < n
  · rw [if_pos h]
    rw [List.getD_eq_getElem?_getD, List.getElem?_map, List.getElem?_range h]
    rfl
  · rw [if_neg h]
    rw [List.getD_eq_getElem?_getD, List.getElem?_eq_none]
    · rfl
    · simpa using Nat.le_of_not_lt h

/-- C8: for every supported pulse kind, duration D > 0, amplitude and dt > 0,
`generate_shock_pulse` returns equal-length time and acceleration arrays of
length ⌈10·D/dt⌉ (equal to 10·D/dt whenever that ratio is integral), with
sample times i·dt, the closed-form shape on the first ⌊D/dt⌋ samples (in
particular A·sin(π·t/D) for half_sine) and zero at every later index. -/
theorem generate_shock_pulse_spec (kind : String) (D A dt : ℝ)
    (hD : 0 < D) (hdt : 0 < dt)
    (hkind : kind ∈ ["half_sine", "triangular", "rectangular", "versed_sine",
      "trapezoidal", "initial_peak_sawtooth", "terminal_peak_sawtooth"]) :
    (generate_shock_pulse kind D A dt).1.length = (generate_shock_pulse kind D A dt).2.length
    ∧ (generate_shock_pulse kind D A dt).1.length = ⌈D * 10 / dt⌉₊
    ∧ (∀ n : ℕ, D * 10 / dt = (n : ℝ) → (generate_shock_pulse kind D A dt).1.length = n)
    ∧ (∀ i, i < ⌈D * 10 / dt⌉₊ →
        (generate_shock_pulse kind D A dt).1.getD i 0 = (i : ℝ) * dt)
    ∧ (∀ i, pulse_samples D dt ≤ i → (generate_shock_pulse kind D A dt).2.getD i 0 = 0)
    ∧ (∀ i, i < pulse_samples D dt → i < ⌈D * 10 / dt⌉₊ →
        (generate_shock_pulse kind D A dt).2.getD i 0 = pulse_shape kind D A dt i)
    ∧ (kind = "half_sine" → ∀ i, i < pulse_samples D dt → i < ⌈D * 10 / dt⌉₊ →
        (generate_shock_pulse kind D A dt).2.getD i 0
          = A * Real.sin (Real.pi * ((i : ℝ) * dt) / D)) := by
  refine ⟨by simp only [generate_shock_pulse, List.length_map],
    by simp only [generate_shock_pulse, List.length_map, List.length_range, pulse_len],
    ?_, ?_, ?_, ?_, ?_⟩
  · intro n hn
    simp only [generate_shock_pulse, List.length_map, List.length_range, pulse_len]
    rw [hn, Nat.ceil_natCast]
  · intro i hi
    simp only [generate_shock_pulse]
    rw [getD_range_map, if_pos (by simpa [pulse_len] using hi)]
  · intro i hi
    simp only [generate_shock_pulse]
    rw [getD_range_map]
    by_cases h : i < pulse_len D dt
    · rw [if_pos h, if_neg (Nat.not_lt.mpr hi)]
    · rw [if_neg h]
  · intro i hips hin
    simp only [generate_shock_pulse]
    rw [getD_range_map, if_pos (by simpa [pulse_len] using hin), if_pos hips]
  · intro hk i hips hin
    subst hk
    simp only [generate_shock_pulse]
    rw [getD_range_map, if_pos (by simpa [pulse_len] using hin), if_pos hips]
    simp [pulse_shape]

/-- Witness for C8: half_sine kind, D = 1, A = 1, dt = 1/10. -/
theorem generate_shock_pulse_spec_witness :
    (0:ℝ) < 1 ∧ (0:ℝ) < 1/10
    ∧ "half_sine" ∈ ["half_sine", "triangular", "rectangular", "versed_sine",
        "trapezoidal", "initial_peak_sawtooth", "terminal_peak_sawtooth"]
    ∧ ((generate_shock_pulse "half_sine" 1 1 (1/10)).1.length
          = (generate_shock_pulse "half_sine" 1 1 (1/10)).2.length
      ∧ (generate_shock_pulse "half_sine" 1 1 (1/10)).1.length = ⌈(1:ℝ) * 10 / (1/10)⌉₊
      ∧ (∀ n : ℕ, (1:ℝ) * 10 / (1/10) = (n : ℝ) →
          (generate_shock_pulse "half_sine" 1 1 (1/10)).1.length = n)
      ∧ (∀ i, i < ⌈(1:ℝ) * 10 / (1/10)⌉₊ →
          (generate_shock_pulse "half_sine" 1 1 (1/10)).1.getD i 0 = (i : ℝ) * (1/10))
      ∧ (∀ i, pulse_samples 1 (1/10) ≤ i →
          (generate_shock_pulse "half_sine" 1 1 (1/10)).2.getD i 0 = 0)
      ∧ (∀ i, i < pulse_samples 1 (1/10) → i < ⌈(1:ℝ) * 10 / (1/10)⌉₊ →
          (generate_shock_pulse "half_sine" 1 1 (1/10)).2.getD i 0
            = pulse_shape "half_sine" 1 1 (1/10) i)
      ∧ ("half_sine" = "half_sine" → ∀ i, i < pulse_samples 1 (1/10) →
          i < ⌈(1:ℝ) * 10 / (1/10)⌉₊ →
          (generate_shock_pulse "half_sine" 1 1 (1/10)).2.getD i 0
            = 1 * Real.sin (Real.pi * ((i : ℝ) * (1/10)) / 1))) :=
  ⟨by norm_num, by norm_num, by simp,
    generate_shock_pulse_spec "half_sine" 1 1 (1/10) (by norm_num) (by norm_num) (by simp)⟩

/-- C10: for every pulse-kind string outside the recognized set,
`generate_shock_pulse` returns (without error) the same time array as for a
recognized kind and an all-zero acceleration array of the same length. -/
theorem generate_shock_pulse_unknown_kind (kind : String) (D A dt : ℝ)
    (hD : 0 < D) (hdt : 0 < dt)
    (hkind : kind ∉ ["half_sine", "triangular", "rectangular", "versed_sine",
      "trapezoidal", "initial_peak_sawtooth", "terminal_peak_sawtooth"]) :
    (generate_shock_pulse kind D A dt).1 = (generate_shock_pulse "half_sine" D A dt).1
    ∧ (generate_shock_pulse kind D A dt).2 = List.replicate (pulse_len D dt) 0 := by
  simp only [List.mem_cons, List.not_mem_nil, or_false, not_or] at hkind
  obtain ⟨h1, h2, h3, h4, h5, h6, h7⟩ := hkind
  refine ⟨rfl, ?_⟩
  simp only [generate_shock_pulse]
  rw [List.eq_replicate_iff]
  constructor
  · simp
  · intro b hb
    obtain ⟨i, _, rfl⟩ := List.mem_map.mp hb
    by_cases h : i < pulse_samples D dt
    · rw [if_pos h]
      simp only [pulse_shape]
      rw [if_neg h1, if_neg h2, if_neg h3, if_neg h4, if_neg h5, if_neg h6, if_neg h7]
    · rw [if_neg h]

/-- Witness for C10: kind = "gaussian", D = 1, A = 1, dt = 1/10. -/
theorem generate_shock_pulse_unknown_kind_witness :
    (0:ℝ) < 1 ∧ (0:ℝ) < 1/10
    ∧ "gaussian" ∉ ["half_sine", "triangular", "rectangular", "versed_sine",
        "trapezoidal", "initial_peak_sawtooth", "terminal_peak_sawtooth"]
    ∧ ((generate_shock_pulse "gaussian" 1 1 (1/10)).1
          = (generate_shock_pulse "half_sine" 1 1 (1/10)).1
      ∧ (generate_shock_pulse "gaussian" 1 1 (1/10)).2
          = List.replicate (pulse_len 1 (1/10)) 0) :=
  ⟨by norm_num, by norm_num, by simp,
    generate_shock_pulse_unknown_kind "gaussian" 1 1 (1/10) (by norm_num) (by norm_num)
      (by simp)⟩

/-- `compute_srs_from_pulse` from `src/core/shock_response.py`: auto-selects
`dt = 1/(max_freq · 20)`, generates the pulse, and delegates to `compute_srs`. -/
def compute_srs_from_pulse (pulse_type : String) (pulse_duration pulse_amplitude : ℝ)
    (frequencies : List ℝ) (damping_ratio : ℝ) : List SRSPoint :=
  let max_freq := npMax frequencies
  let dt := 1 / (max_freq * 20)
  let accel := (generate_shock_pulse pulse_type pulse_duration pulse_amplitude dt).2
  compute_srs accel dt frequencies damping_ratio

/-- C9: for a non-empty frequency list with positive maximum,
`compute_srs_from_pulse` uses the time step dt = 1/(max_freq·20), which
satisfies dt ≤ 1/(20·max(frequencies)) (at least 20 samples per cycle of the
highest frequency, `npMax` dominating every requested frequency), and
delegates to `compute_srs` on the pulse record generated with that dt. -/
theorem compute_srs_from_pulse_spec (kind : String) (D A zeta : ℝ) (freqs : List ℝ)
    (hne : freqs ≠ []) (hpos : 0 < npMax freqs) :
    (1 / (npMax freqs * 20) ≤ 1 / (20 * npMax freqs))
    ∧ (∀ f ∈ freqs, f ≤ npMax freqs)
    ∧ compute_srs_from_pulse kind D A freqs zeta
        = compute_srs (generate_shock_pulse kind D A (1 / (npMax freqs * 20))).2
            (1 / (npMax freqs * 20)) freqs zeta := by
  refine ⟨by rw [mul_comm], fun f hf => le_npMax_of_mem freqs f hf, rfl⟩

/-- Witness for C9 at freqs = [10]. -/
theorem compute_srs_from_pulse_spec_witness :
    ([10] : List ℝ) ≠ [] ∧ 0 < npMax [10]
    ∧ ((1 / (npMax [10] * 20) ≤ 1 / (20 * npMax ([10] : List ℝ)))
      ∧ (∀ f ∈ ([10] : List ℝ), f ≤ npMax [10])
      ∧ compute_srs_from_pulse "half_sine" 1 1 [10] (1/20)
          = compute_srs (generate_shock_pulse "half_sine" 1 1 (1 / (npMax ([10] : List ℝ) * 20))).2
              (1 / (npMax ([10] : List ℝ) * 20)) [10] (1/20)) :=
  ⟨by simp, by rw [show npMax ([10] : List ℝ) = 10 from rfl]; norm_num,
    compute_srs_from_pulse_spec "half_sine" 1 1 (1/20) [10] (by simp)
      (by rw [show npMax ([10] : List ℝ) = 10 from rfl]; norm_num)⟩

end SDOF
